import Mathlib

/-!
# contextual: cancellable function calls and channel operations

A shallow embedding of `contextual.go`.

* Values of Go's `error` interface are the type `GoError`.
* A `context.Context` is observed through `Done()` and `Err()` only; its state is `Context`.
* A channel is its capacity, its queue of buffered values and its closed flag (`Chan`).
* A `select` statement is the function `select`: among the cases that can proceed one is
  chosen by the argument `pick` (Go chooses pseudo-randomly), otherwise the default case
  runs, otherwise the goroutine stays blocked.
* `Recv` and `Send` are one `select` each.  `Exec` starts a goroutine, so it is a state
  machine (`Exec.step`) driven by a schedule of events: a step of the calling goroutine,
  a step of the spawned goroutine, or the cancellation of the context by its owner.
-/

namespace Contextual

/-! ## Data model -/

/-- Generic pair type, `pair[F, S]` of the source. -/
structure pair (F S : Type) where
  f : F
  s : S
deriving DecidableEq, Repr

/-- Constructor `pairOf` of the source. -/
def pairOf {F S : Type} (f : F) (s : S) : pair F S := { f := f, s := s }

/-- String-backed error type `textError` of the source. -/
structure textError where
  text : String
deriving DecidableEq, Repr

/-- Method `Error` of `textError`: the string itself. -/
def textError.Error (e : textError) : String := e.text

/-- Sentinel returned when receiving from a closed channel. -/
def ErrChanClosed : textError := { text := "contextual: channel closed" }

/-- Values of Go's `error` interface: `nil`, the two errors of package `context`,
a `textError` of this package, or any other error value (such as one made by
`errors.New`), identified by its message. -/
inductive GoError where
  | nil
  | Canceled
  | DeadlineExceeded
  | text (e : textError)
  | foreign (msg : String)
deriving DecidableEq, Repr

/-- Zero value of the interface type `error` is nil. -/
instance instInhabitedGoError : Inhabited GoError := ⟨GoError.nil⟩

/-- Zero value of a `pair` has the zero value in both fields. -/
instance instInhabitedPair {F S : Type} [Inhabited F] [Inhabited S] : Inhabited (pair F S) :=
  ⟨{ f := default, s := default }⟩

/-- Why a context is done. -/
inductive Reason where
  | canceled
  | deadlineExceeded
deriving DecidableEq, Repr

/-- Observable state of a `context.Context`: `none` while the channel `Done()` is open,
`some r` once the context is done for reason `r`. -/
structure Context where
  state : Option Reason
deriving DecidableEq, Repr

/-- Whether a receive on `ctx.Done()` can proceed (the channel is closed). -/
def Context.Done (ctx : Context) : Bool := ctx.state.isSome

/-- Result of `ctx.Err()`: nil while the context is not done, else its reason. -/
def Context.Err (ctx : Context) : GoError :=
  match ctx.state with
  | none => GoError.nil
  | some Reason.canceled => GoError.Canceled
  | some Reason.deadlineExceeded => GoError.DeadlineExceeded

/-- The owner cancels the context (or its deadline elapses); the first reason sticks. -/
def Context.cancel (ctx : Context) (r : Reason) : Context :=
  match ctx.state with
  | none => { state := some r }
  | some _ => ctx

/-- A Go channel: capacity, values queued in FIFO order, closed flag.  The state is
that of the channel alone; goroutines parked on it belong to the environment of a call
and are not part of it, so an operation proceeds through the queue or the closed flag. -/
structure Chan (T : Type) where
  cap : Nat
  buf : List T
  closed : Bool
deriving DecidableEq, Repr

/-- Channel made by `make(chan T, n)`. -/
def Chan.make {T : Type} (n : Nat) : Chan T := { cap := n, buf := [], closed := false }

/-- A receive can proceed when a value is queued or the channel is closed.  A rendezvous
with a sender parked on the channel is outside this state. -/
def Chan.canRecv {T : Type} (ch : Chan T) : Bool := !ch.buf.isEmpty || ch.closed

/-- A send can proceed when the queue has room; on a closed channel it proceeds by
panicking.  A rendezvous with a receiver parked on the channel is outside this state. -/
def Chan.canSend {T : Type} (ch : Chan T) : Bool := ch.closed || decide (ch.buf.length < ch.cap)

/-- Receive `v, ok := <-ch` when it can proceed: the head of the queue with `ok = true`,
or the zero value with `ok = false` on a closed channel that is drained. -/
def Chan.recv {T : Type} [Inhabited T] (ch : Chan T) : T × Bool × Chan T :=
  match ch.buf with
  | v :: rest => (v, true, { ch with buf := rest })
  | [] => (default, false, ch)

/-- Send `ch <- t` when it can proceed: `none` is the run-time panic of a send on a
closed channel. -/
def Chan.send {T : Type} (ch : Chan T) (t : T) : Option (Chan T) :=
  if ch.closed then none else some { ch with buf := ch.buf ++ [t] }

/-- Builtin `close(ch)`: `none` is the run-time panic of closing a closed channel. -/
def Chan.close {T : Type} (ch : Chan T) : Option (Chan T) :=
  if ch.closed then none else some { ch with closed := true }

/-- Go's `select`: `cases` lists each communication case with whether it can proceed, in
source order.  One of the cases that can proceed is chosen by `pick`; if there is none
the default case is taken; `none` means the statement blocks. -/
def select {α : Type} (cases : List (Bool × α)) (dflt : Option α) (pick : Nat) : Option α :=
  match (cases.filter (fun c => c.1)).map (fun c => c.2) with
  | [] => dflt
  | a :: rest => some ((a :: rest).getD (pick % (rest.length + 1)) a)

/-- Branches of the `select` statements of the source. -/
inductive Branch where
  | ctxDone
  | comm
  | dflt
deriving DecidableEq, Repr

/-- What a call has done so far: still blocked in its `select`, ended in a run-time
panic, or returned `r` leaving the channel in state `st`. -/
inductive Outcome (α σ : Type) where
  | blocked
  | panicked
  | returned (r : α) (st : σ)
deriving DecidableEq, Repr

/-! ## Recv and Send -/

/-- Function `Recv` of the source: one `select` between `<-ctx.Done()` and `v, ok := <-ch`. -/
def Recv {T : Type} [Inhabited T] (ctx : Context) (ch : Chan T) (pick : Nat) :
    Outcome (T × GoError) (Chan T) :=
  match select [(ctx.Done, Branch.ctxDone), (ch.canRecv, Branch.comm)] none pick with
  | some Branch.ctxDone => Outcome.returned (default, ctx.Err) ch
  | some Branch.comm =>
    match ch.recv with
    | (v, ok, ch') =>
      if !ok then Outcome.returned (default, GoError.text ErrChanClosed) ch'
      else Outcome.returned (v, GoError.nil) ch'
  | _ => Outcome.blocked

/-- Function `Send` of the source: one `select` between `<-ctx.Done()` and `ch <- t`. -/
def Send {T : Type} (ctx : Context) (ch : Chan T) (t : T) (pick : Nat) :
    Outcome GoError (Chan T) :=
  match select [(ctx.Done, Branch.ctxDone), (ch.canSend, Branch.comm)] none pick with
  | some Branch.ctxDone => Outcome.returned ctx.Err ch
  | some Branch.comm =>
    match ch.send t with
    | some ch' => Outcome.returned GoError.nil ch'
    | none => Outcome.panicked
  | _ => Outcome.blocked

/-! ## Exec -/

/-- Observable behaviour of the argument `f` of `Exec`: it returns the values `v, e`
after `work` scheduling steps of its goroutine, or it never returns. -/
inductive Func (T : Type) where
  | returns (work : Nat) (v : T) (e : GoError)
  | hangs
deriving DecidableEq, Repr

/-- Program point of the goroutine `go func() { res <- pairOf(f()); close(res) }()`:
not started by `go` yet, started and about to call `f`, inside `f` with `left` steps to
go, inside an `f` that never returns, at the send of the pair to `res`, at `close(res)`,
past its last statement, or stopped by a run-time panic. -/
inductive Worker (T : Type) where
  | unborn
  | spawned
  | inF (left : Nat)
  | stuck
  | sending (p : pair T GoError)
  | closing
  | exited
  | panicked
deriving DecidableEq, Repr

/-- Which case of the final `select` of `Exec` produced the return. -/
inductive Via where
  | cancellation
  | outcome
deriving DecidableEq, Repr

/-- Program point of the goroutine that called `Exec`: the first `select` (with its
default case), the statements `make` and `go`, the second `select`, or returned. -/
inductive PC (T : Type) where
  | precheck
  | spawn
  | race
  | returned (via : Via) (ret : T) (err : GoError)
deriving DecidableEq, Repr

/-- State of one call of `Exec`.  The counters `calls` and `sends` record how often
`f` was called and how often the goroutine wrote to `res`. -/
structure ExecState (T : Type) where
  ctx : Context
  pc : PC T
  res : Chan (pair T GoError)
  worker : Worker T
  calls : Nat
  sends : Nat
deriving DecidableEq, Repr

/-- One scheduling event: the owner cancels the context, the caller of `Exec` takes a
step (`pick` resolves its `select`), or the spawned goroutine takes a step. -/
inductive Event where
  | cancel (r : Reason)
  | main (pick : Nat)
  | worker
deriving DecidableEq, Repr

/-- State at the call of `Exec(ctx, f)`; `res` is not made yet. -/
def Exec.init {T : Type} (ctx : Context) : ExecState T :=
  { ctx := ctx, pc := PC.precheck, res := { cap := 0, buf := [], closed := false },
    worker := Worker.unborn, calls := 0, sends := 0 }

/-- One step of the caller through the body of `Exec`. -/
def Exec.stepMain {T : Type} [Inhabited T] (s : ExecState T) (pick : Nat) : ExecState T :=
  match s.pc with
  | PC.precheck =>
    match select [(s.ctx.Done, Branch.ctxDone)] (some Branch.dflt) pick with
    | some Branch.ctxDone => { s with pc := PC.returned Via.cancellation default s.ctx.Err }
    | _ => { s with pc := PC.spawn }
  | PC.spawn => { s with res := Chan.make 1, worker := Worker.spawned, pc := PC.race }
  | PC.race =>
    match select [(s.ctx.Done, Branch.ctxDone), (s.res.canRecv, Branch.comm)] none pick with
    | some Branch.ctxDone => { s with pc := PC.returned Via.cancellation default s.ctx.Err }
    | some Branch.comm =>
      match s.res.recv with
      | (r, _, res') => { s with pc := PC.returned Via.outcome r.f r.s, res := res' }
    | _ => s
  | PC.returned _ _ _ => s

/-- One step of the spawned goroutine: call `f`, run it, send its pair to `res`,
close `res`, exit. -/
def Exec.stepWorker {T : Type} (f : Func T) (s : ExecState T) : ExecState T :=
  match s.worker with
  | Worker.unborn => s
  | Worker.spawned =>
    match f with
    | Func.returns work _ _ => { s with worker := Worker.inF work, calls := s.calls + 1 }
    | Func.hangs => { s with worker := Worker.stuck, calls := s.calls + 1 }
  | Worker.inF (left + 1) => { s with worker := Worker.inF left }
  | Worker.inF 0 =>
    match f with
    | Func.returns _ v e => { s with worker := Worker.sending (pairOf v e) }
    | Func.hangs => { s with worker := Worker.stuck }
  | Worker.stuck => s
  | Worker.sending p =>
    if s.res.canSend then
      match s.res.send p with
      | some res' => { s with worker := Worker.closing, res := res', sends := s.sends + 1 }
      | none => { s with worker := Worker.panicked }
    else s
  | Worker.closing =>
    match s.res.close with
    | some res' => { s with worker := Worker.exited, res := res' }
    | none => { s with worker := Worker.panicked }
  | Worker.exited => s
  | Worker.panicked => s

/-- One scheduling event applied to a call of `Exec`. -/
def Exec.step {T : Type} [Inhabited T] (f : Func T) (s : ExecState T) (ev : Event) :
    ExecState T :=
  match ev with
  | Event.cancel r => { s with ctx := s.ctx.cancel r }
  | Event.main pick => Exec.stepMain s pick
  | Event.worker => Exec.stepWorker f s

/-- The call from state `s` under the schedule `evs`. -/
def Exec.run {T : Type} [Inhabited T] (f : Func T) (s : ExecState T) (evs : List Event) :
    ExecState T :=
  evs.foldl (Exec.step f) s

/-- Function `Exec` of the source: the call `Exec(ctx, f)` under the schedule `evs`. -/
def Exec {T : Type} [Inhabited T] (ctx : Context) (f : Func T) (evs : List Event) :
    ExecState T :=
  Exec.run f (Exec.init ctx) evs

/-- What the call has returned, if it has. -/
def ExecState.result {T : Type} (s : ExecState T) : Option (T × GoError) :=
  match s.pc with
  | PC.returned _ ret err => some (ret, err)
  | _ => none

/-- Whether the spawned goroutine is blocked in its send to `res`. -/
def ExecState.workerBlocked {T : Type} (s : ExecState T) : Bool :=
  match s.worker with
  | Worker.sending _ => !s.res.canSend
  | _ => false

/-- Schedules in which the context is never cancelled. -/
def noCancel (evs : List Event) : Bool :=
  evs.all (fun ev => match ev with
    | Event.cancel _ => false
    | _ => true)

/-- Number of steps of the spawned goroutine in a schedule. -/
def workerSteps (evs : List Event) : Nat :=
  evs.countP (fun ev => match ev with
    | Event.worker => true
    | _ => false)

/-- Steps the spawned goroutine still needs to reach its exit when `f` returns after
`work` steps. -/
def Worker.todo {T : Type} (work : Nat) : Worker T → Nat
  | Worker.unborn => work + 4
  | Worker.spawned => work + 4
  | Worker.inF left => left + 3
  | Worker.sending _ => 2
  | Worker.closing => 1
  | _ => 0

/-- The pair the goroutine will send to `res`: the result of `f`, if `f` returns. -/
def Func.out {T : Type} : Func T → Option (pair T GoError)
  | Func.returns _ v e => some (pairOf v e)
  | Func.hangs => none

/-- Scheduling steps `f` takes before it returns. -/
def Func.work {T : Type} : Func T → Nat
  | Func.returns work _ _ => work
  | Func.hangs => 0

/-- Invariant of the reachable states of a call of `Exec(ctx, f)`: how the program
points of the two goroutines, the handoff `res` and the two counters are related. -/
def Exec.Inv {T : Type} [Inhabited T] (f : Func T) (s : ExecState T) : Prop :=
  (match s.worker with
    | Worker.unborn => (s.pc = PC.precheck ∨ s.pc = PC.spawn ∨
        s.pc = PC.returned Via.cancellation default s.ctx.Err) ∧ s.calls = 0 ∧ s.sends = 0 ∧
        s.res = { cap := 0, buf := [], closed := false }
    | Worker.spawned => s.res = Chan.make 1 ∧ s.calls = 0 ∧ s.sends = 0
    | Worker.inF left => s.res = Chan.make 1 ∧ s.calls = 1 ∧ s.sends = 0 ∧
        f.out.isSome = true ∧ left ≤ f.work
    | Worker.stuck => s.res = Chan.make 1 ∧ s.calls = 1 ∧ s.sends = 0 ∧ f = Func.hangs
    | Worker.sending p => s.res = Chan.make 1 ∧ s.calls = 1 ∧ s.sends = 0 ∧ f.out = some p
    | Worker.closing => s.calls = 1 ∧ s.sends = 1 ∧ ∃ p, f.out = some p ∧
        ((s.res = { cap := 1, buf := [p], closed := false } ∧
            ∀ r er, s.pc ≠ PC.returned Via.outcome r er) ∨
          (s.res = { cap := 1, buf := [], closed := false } ∧
            s.pc = PC.returned Via.outcome p.f p.s))
    | Worker.exited => s.calls = 1 ∧ s.sends = 1 ∧ ∃ p, f.out = some p ∧
        ((s.res = { cap := 1, buf := [p], closed := true } ∧
            ∀ r er, s.pc ≠ PC.returned Via.outcome r er) ∨
          (s.res = { cap := 1, buf := [], closed := true } ∧
            s.pc = PC.returned Via.outcome p.f p.s))
    | Worker.panicked => False) ∧
  (s.worker ≠ Worker.unborn →
    s.pc = PC.race ∨ (∃ r er, s.pc = PC.returned Via.outcome r er) ∨
      s.pc = PC.returned Via.cancellation default s.ctx.Err) ∧
  (∀ r er, s.pc = PC.returned Via.cancellation r er →
    s.ctx.Done = true ∧ r = default ∧ er = s.ctx.Err) ∧
  (∀ r er, s.pc = PC.returned Via.outcome r er →
    s.worker = Worker.closing ∨ s.worker = Worker.exited)

/-! ## The select statement -/

theorem select_two {α : Type} (a b : Bool) (x y : α) (pick : Nat) :
    select [(a, x), (b, y)] none pick =
      if a && b then (if pick % 2 = 0 then some x else some y)
      else if a then some x else if b then some y else none := by
  cases a <;> cases b <;> simp [select]
  rcases Nat.mod_two_eq_zero_or_one pick with h | h <;> simp [h]

theorem select_one_default {α : Type} (a : Bool) (x d : α) (pick : Nat) :
    select [(a, x)] (some d) pick = if a then some x else some d := by
  cases a <;> simp [select]

theorem Context.Err_of_Done {ctx : Context} (h : ctx.Done = true) :
    ctx.Err = GoError.Canceled ∨ ctx.Err = GoError.DeadlineExceeded := by
  cases ctx with
  | mk st =>
    cases st with
    | none => simp [Context.Done] at h
    | some r => cases r <;> simp [Context.Err]

/-! ## Recv -/

theorem Recv_cases {T : Type} [Inhabited T] (ctx : Context) (ch : Chan T) (pick : Nat) :
    Recv ctx ch pick =
      if ctx.Done && (ch.canRecv && decide (pick % 2 = 1)) || (!ctx.Done && ch.canRecv) then
        (match ch.buf with
          | v :: rest => Outcome.returned (v, GoError.nil) { ch with buf := rest }
          | [] => Outcome.returned (default, GoError.text ErrChanClosed) ch)
      else if ctx.Done then Outcome.returned (default, ctx.Err) ch
      else Outcome.blocked := by
  unfold Recv
  rw [select_two]
  rcases Nat.mod_two_eq_zero_or_one pick with h | h <;>
    cases hd : ctx.Done <;> cases hr : ch.canRecv <;> simp [h, Chan.recv] <;>
    cases hb : ch.buf <;> simp

/-- C6: with a context that is not done and a channel on which a receive can proceed,
`Recv` returns the head of the queue with a nil error and removes exactly that value
(whether or not the channel has been closed since), and it returns the zero value with
`ErrChanClosed` exactly when the channel is closed and holds no value. -/
theorem Recv_not_done_ready {T : Type} [Inhabited T] (ctx : Context) (ch : Chan T)
    (pick : Nat) (hctx : ctx.Done = false) (hready : ch.canRecv = true) :
    (∀ v rest, ch.buf = v :: rest →
      Recv ctx ch pick = Outcome.returned (v, GoError.nil) { ch with buf := rest }) ∧
    (ch.buf = [] →
      Recv ctx ch pick = Outcome.returned (default, GoError.text ErrChanClosed) ch) ∧
    (∀ r ch', Recv ctx ch pick = Outcome.returned r ch' →
      (r.2 = GoError.text ErrChanClosed ↔ (ch.closed = true ∧ ch.buf = []))) ∧
    Recv ctx ch pick ≠ Outcome.blocked ∧
    ErrChanClosed.Error = "contextual: channel closed" := by
  rw [Recv_cases]
  simp only [hctx, hready]
  refine ⟨?_, ?_, ?_, ?_, rfl⟩
  · intro v rest hb
    simp [hb]
  · intro hb
    simp [hb]
  · intro r ch' h
    cases hb : ch.buf with
    | nil =>
      simp [hb] at h
      have hc : ch.closed = true := by simpa [Chan.canRecv, hb] using hready
      simp [← h.1, hc]
    | cons v rest =>
      simp [hb] at h
      simp [← h.1]
  · cases hb : ch.buf <;> simp

/-- Instance of `Recv_not_done_ready`: the two tests of `Recv` without cancellation, a
closed channel that still holds 42 and a closed channel that holds nothing. -/
theorem Recv_not_done_ready_witness :
    Recv { state := none } ({ cap := 1, buf := [42], closed := true } : Chan Int) 0 =
        Outcome.returned (42, GoError.nil) { cap := 1, buf := [], closed := true } ∧
      Recv { state := none } ({ cap := 0, buf := [], closed := true } : Chan Int) 0 =
        Outcome.returned (0, GoError.text ErrChanClosed) { cap := 0, buf := [], closed := true } :=
  ⟨(Recv_not_done_ready { state := none } ({ cap := 1, buf := [42], closed := true } : Chan Int)
      0 rfl rfl).1 42 [] rfl,
    (Recv_not_done_ready { state := none } ({ cap := 0, buf := [], closed := true } : Chan Int)
      0 rfl rfl).2.1 rfl⟩

/-- C4, a defect of the code: `Recv` lacks the check of the context that `Exec` makes
before it starts.  With a context that is already done and a channel holding the buffered
value 42, both cases of its `select` can proceed.  When the cancellation case is chosen
`Recv` returns the zero value and `ctx.Err()` and leaves the channel as it is, which is
what the claim says; when the receive case is chosen it returns `(42, nil)` and removes
the value from the channel, and on a closed, empty channel it returns `ErrChanClosed`. -/
theorem Recv_done_may_receive :
    Recv { state := some Reason.canceled } ({ cap := 1, buf := [42], closed := false } : Chan Int) 1
        = Outcome.returned (42, GoError.nil) { cap := 1, buf := [], closed := false } ∧
      Recv { state := some Reason.canceled }
          ({ cap := 1, buf := [42], closed := false } : Chan Int) 1
        ≠ Outcome.returned (default, Context.Err { state := some Reason.canceled })
            { cap := 1, buf := [42], closed := false } ∧
      Recv { state := some Reason.canceled }
          ({ cap := 1, buf := [42], closed := false } : Chan Int) 0
        = Outcome.returned (0, GoError.Canceled) { cap := 1, buf := [42], closed := false } ∧
      Recv { state := some Reason.canceled }
          ({ cap := 0, buf := [], closed := true } : Chan Int) 1
        = Outcome.returned (0, GoError.text ErrChanClosed)
            { cap := 0, buf := [], closed := true } := by
  refine ⟨rfl, by decide, rfl, rfl⟩

/-! ## Send -/

theorem Send_cases {T : Type} (ctx : Context) (ch : Chan T) (t : T) (pick : Nat) :
    Send ctx ch t pick =
      if ctx.Done && (ch.canSend && decide (pick % 2 = 1)) || (!ctx.Done && ch.canSend) then
        (if ch.closed then Outcome.panicked
          else Outcome.returned GoError.nil { ch with buf := ch.buf ++ [t] })
      else if ctx.Done then Outcome.returned ctx.Err ch
      else Outcome.blocked := by
  unfold Send
  rw [select_two]
  rcases Nat.mod_two_eq_zero_or_one pick with h | h <;>
    cases hd : ctx.Done <;> cases hr : ch.canSend <;> cases hc : ch.closed <;>
    simp [h, Chan.send, hc]

/-- C5, a defect of the code: `Send` lacks the check of the context that `Exec` makes
before it starts.  With a context that is already done and a buffered channel with spare
capacity, both cases of its `select` can proceed.  When the cancellation case is chosen
`Send` returns `ctx.Err()` and the channel is unchanged, which is what the claim says;
when the send case is chosen it returns nil and places the value 42 in the channel. -/
theorem Send_done_may_send :
    Send { state := some Reason.canceled } ({ cap := 1, buf := [], closed := false } : Chan Int)
        42 1
        = Outcome.returned GoError.nil { cap := 1, buf := [42], closed := false } ∧
      Send { state := some Reason.canceled } ({ cap := 1, buf := [], closed := false } : Chan Int)
        42 1
        ≠ Outcome.returned (Context.Err { state := some Reason.canceled })
            { cap := 1, buf := [], closed := false } ∧
      Send { state := some Reason.canceled } ({ cap := 1, buf := [], closed := false } : Chan Int)
        42 0
        = Outcome.returned GoError.Canceled { cap := 1, buf := [], closed := false } := by
  refine ⟨rfl, by decide, rfl⟩

/-- C7: with a context that is not done, on an open channel with spare capacity `Send`
returns nil and appends exactly the value to the queue, the earlier contents unchanged;
on a channel that was empty before, a following `Recv` returns that value with a nil
error (and leaves the channel empty again). -/
theorem Send_spare_capacity {T : Type} [Inhabited T] (ctx : Context) (ch : Chan T) (t : T)
    (pick : Nat) (hctx : ctx.Done = false) (hopen : ch.closed = false)
    (hroom : ch.buf.length < ch.cap) :
    Send ctx ch t pick = Outcome.returned GoError.nil { ch with buf := ch.buf ++ [t] } ∧
    (ch.buf = [] → ∀ pick', Recv ctx { ch with buf := ch.buf ++ [t] } pick' =
      Outcome.returned (t, GoError.nil) ch) := by
  constructor
  · rw [Send_cases]
    simp [hctx, hopen, Chan.canSend, hroom]
  · intro hb pick'
    rw [Recv_cases]
    simp [hctx, hb, Chan.canRecv]
    cases ch
    simp_all

/-- Instance of `Send_spare_capacity`: sending 42 into an empty channel of capacity
one, then receiving it. -/
theorem Send_spare_capacity_witness :
    Send { state := none } ({ cap := 1, buf := [], closed := false } : Chan Int) 42 0 =
        Outcome.returned GoError.nil { cap := 1, buf := [42], closed := false } ∧
      Recv { state := none } ({ cap := 1, buf := [42], closed := false } : Chan Int) 0 =
        Outcome.returned (42, GoError.nil) { cap := 1, buf := [], closed := false } :=
  ⟨(Send_spare_capacity { state := none } ({ cap := 1, buf := [], closed := false } : Chan Int)
      42 0 rfl rfl (by decide)).1,
    (Send_spare_capacity { state := none } ({ cap := 1, buf := [], closed := false } : Chan Int)
      42 0 rfl rfl (by decide)).2 rfl 0⟩

/-- C10: `Send` has no guard for a closed channel.  On an open channel it never panics
and what it returns is nil (the value was appended) or `ctx.Err()` of a done context (the
channel is unchanged).  On a closed channel with a context that is not done it returns
no error, it panics.  It panics exactly when the channel is closed and the case chosen
by `select` is not the cancellation case. -/
theorem Send_panics_iff_closed {T : Type} (ctx : Context) (ch : Chan T) (t : T) (pick : Nat) :
    (ch.closed = false →
      Send ctx ch t pick ≠ Outcome.panicked ∧
      ∀ e ch', Send ctx ch t pick = Outcome.returned e ch' →
        (e = GoError.nil ∧ ch' = { ch with buf := ch.buf ++ [t] }) ∨
          (e = ctx.Err ∧ ctx.Done = true ∧ ch' = ch)) ∧
    (ch.closed = true → ctx.Done = false → Send ctx ch t pick = Outcome.panicked) ∧
    (Send ctx ch t pick = Outcome.panicked ↔
      (ch.closed = true ∧
        select [(ctx.Done, Branch.ctxDone), (ch.canSend, Branch.comm)] none pick
          ≠ some Branch.ctxDone)) ∧
    (∀ e ch', Send ctx ch t pick = Outcome.returned e ch' → e ≠ GoError.text ErrChanClosed) := by
  rw [Send_cases, select_two]
  rcases Nat.mod_two_eq_zero_or_one pick with h | h <;>
    cases hd : ctx.Done <;> cases hc : ch.closed <;>
    by_cases hl : ch.buf.length < ch.cap <;>
    simp [h, Chan.canSend, hc, hl] <;>
    rcases Context.Err_of_Done hd with he | he <;> simp [he]

/-- Instance of `Send_panics_iff_closed`: a send on a closed channel under a context
that is not done panics. -/
theorem Send_panics_iff_closed_witness :
    Send { state := none } ({ cap := 1, buf := [], closed := true } : Chan Int) 42 0 =
      Outcome.panicked :=
  (Send_panics_iff_closed { state := none } ({ cap := 1, buf := [], closed := true } : Chan Int)
    42 0).2.1 rfl rfl

/-! ## Exec: the invariant -/

theorem Exec.run_append {T : Type} [Inhabited T] (f : Func T) (s : ExecState T)
    (evs evs' : List Event) :
    Exec.run f s (evs ++ evs') = Exec.run f (Exec.run f s evs) evs' := by
  simp [Exec.run, List.foldl_append]

theorem Exec.run_cons {T : Type} [Inhabited T] (f : Func T) (s : ExecState T)
    (ev : Event) (evs : List Event) :
    Exec.run f s (ev :: evs) = Exec.run f (Exec.step f s ev) evs := rfl

theorem Context.cancel_of_Done {ctx : Context} (h : ctx.Done = true) (r : Reason) :
    ctx.cancel r = ctx := by
  cases ctx with
  | mk st =>
    cases st with
    | none => simp [Context.Done] at h
    | some r' => rfl

theorem Exec.Inv_init {T : Type} [Inhabited T] (f : Func T) (ctx : Context) :
    Exec.Inv f (Exec.init ctx : ExecState T) := by
  simp [Exec.Inv, Exec.init]

theorem Exec.Inv_cancel {T : Type} [Inhabited T] (f : Func T) (s : ExecState T) (r : Reason)
    (h : Exec.Inv f s) : Exec.Inv f { s with ctx := s.ctx.cancel r } := by
  by_cases hd : s.ctx.Done = true
  · rw [Context.cancel_of_Done hd]
    exact h
  · obtain ⟨h1, h2, h3, h4⟩ := h
    have hnc : ∀ r er, s.pc ≠ PC.returned Via.cancellation r er := by
      intro r er hpc
      exact hd (h3 r er hpc).1
    refine ⟨?_, ?_, ?_, h4⟩
    · cases hw : s.worker <;> simp only [hw] at h1 ⊢ <;> try exact h1
      rcases h1 with ⟨hp | hp | hp, hc⟩
      · exact ⟨Or.inl hp, hc⟩
      · exact ⟨Or.inr (Or.inl hp), hc⟩
      · exact absurd hp (hnc _ _)
    · intro hw
      rcases h2 hw with hp | hp | hp
      · exact Or.inl hp
      · exact Or.inr (Or.inl hp)
      · exact absurd hp (hnc _ _)
    · intro r er hpc
      exact absurd hpc (hnc _ _)

theorem Exec.Inv_main {T : Type} [Inhabited T] (f : Func T) (s : ExecState T) (pick : Nat)
    (h : Exec.Inv f s) : Exec.Inv f (Exec.stepMain s pick) := by
  obtain ⟨h1, h2, h3, h4⟩ := h
  unfold Exec.stepMain
  cases hpc : s.pc with
  | precheck =>
    have hw : s.worker = Worker.unborn := by
      by_contra hne
      rcases h2 hne with hp | ⟨r, er, hp⟩ | hp <;> simp [hpc] at hp
    simp only [select_one_default]
    cases hd : s.ctx.Done <;> simp [Exec.Inv, hw, hd]
    all_goals simp_all
  | spawn =>
    have hw : s.worker = Worker.unborn := by
      by_contra hne
      rcases h2 hne with hp | ⟨r, er, hp⟩ | hp <;> simp [hpc] at hp
    simp [Exec.Inv, hw]
    simp_all
  | race =>
    rw [select_two]
    have hcanc : s.ctx.Done = true →
        Exec.Inv f { s with pc := PC.returned Via.cancellation default s.ctx.Err } := by
      intro hd
      refine ⟨?_, ?_, ?_, ?_⟩
      · cases hw : s.worker <;> simp only [hw] at h1 ⊢ <;> simp_all
      · intro _
        exact Or.inr (Or.inr rfl)
      · intro r er hp
        simp at hp
        simp [hd, hp]
      · intro r er hp
        simp at hp
    have hcomm : s.res.canRecv = true →
        Exec.Inv f (match s.res.recv with
          | (r, _, res') => { s with pc := PC.returned Via.outcome r.f r.s, res := res' }) := by
      intro hr
      cases hw : s.worker <;> simp only [hw] at h1 <;>
        simp_all [Exec.Inv, Chan.canRecv, Chan.make, Chan.recv]
      all_goals
        obtain ⟨_, _, p, hp, hres⟩ := h1
        exact ⟨p, hp, by simp [hres]⟩
    cases hd : s.ctx.Done <;> cases hr : s.res.canRecv <;>
      rcases Nat.mod_two_eq_zero_or_one pick with hm | hm <;>
      simp only [hm, Bool.and_self, Bool.and_true, Bool.and_false, Bool.false_and,
        if_true, if_false, Bool.false_eq_true, one_ne_zero] <;>
      first
        | exact hcanc hd
        | exact hcomm hr
        | exact ⟨h1, h2, h3, h4⟩
  | returned via r er =>
    simp only
    exact ⟨h1, h2, h3, h4⟩

theorem Exec.Inv_worker {T : Type} [Inhabited T] (f : Func T) (s : ExecState T)
    (h : Exec.Inv f s) : Exec.Inv f (Exec.stepWorker f s) := by
  obtain ⟨h1, h2, h3, h4⟩ := h
  have hno : s.worker ≠ Worker.closing → s.worker ≠ Worker.exited →
      ∀ r er, s.pc ≠ PC.returned Via.outcome r er := by
    intro hc he r er hp
    rcases h4 r er hp with h | h
    · exact hc h
    · exact he h
  unfold Exec.stepWorker
  cases hw : s.worker with
  | unborn => exact ⟨h1, h2, h3, h4⟩
  | spawned =>
    have h2' := h2 (by simp [hw])
    have hno' := hno (by simp [hw]) (by simp [hw])
    simp only [hw] at h1
    cases f with
    | returns w v e =>
      refine ⟨?_, fun _ => h2', h3, fun r er hp => absurd hp (hno' r er)⟩
      simp [h1, Func.out, Func.work]
    | hangs =>
      refine ⟨?_, fun _ => h2', h3, fun r er hp => absurd hp (hno' r er)⟩
      simp [h1]
  | inF left =>
    have h2' := h2 (by simp [hw])
    have hno' := hno (by simp [hw]) (by simp [hw])
    simp only [hw] at h1
    cases left with
    | zero =>
      cases f with
      | returns w v e =>
        refine ⟨?_, fun _ => h2', h3, fun r er hp => absurd hp (hno' r er)⟩
        simp [h1, Func.out]
      | hangs => simp [Func.out] at h1
    | succ n =>
      refine ⟨?_, fun _ => h2', h3, fun r er hp => absurd hp (hno' r er)⟩
      simp [h1]
      omega
  | stuck => exact ⟨h1, h2, h3, h4⟩
  | sending p =>
    have h2' := h2 (by simp [hw])
    have hno' := hno (by simp [hw]) (by simp [hw])
    simp only [hw] at h1
    obtain ⟨hres, hc, hs, hout⟩ := h1
    simp only [hres, Chan.canSend, Chan.make, Chan.send]
    refine ⟨?_, fun _ => h2', h3, fun r er hp => Or.inl rfl⟩
    simp [hc, hs]
    exact ⟨p, hout, rfl, hno'⟩
  | closing =>
    have h2' := h2 (by simp [hw])
    simp only [hw] at h1
    obtain ⟨hc, hs, p, hout, hres⟩ := h1
    rcases hres with ⟨hres, hpc⟩ | ⟨hres, hpc⟩
    · simp only [hres, Chan.close]
      refine ⟨?_, fun _ => h2', h3, fun r er hp => Or.inr rfl⟩
      simp [hc, hs]
      exact ⟨p, hout, rfl, hpc⟩
    · simp only [hres, Chan.close]
      refine ⟨?_, fun _ => h2', h3, fun r er hp => Or.inr rfl⟩
      simp [hc, hs]
      exact ⟨p, hout, hpc⟩
  | exited => exact ⟨h1, h2, h3, h4⟩
  | panicked => exact ⟨h1, h2, h3, h4⟩

theorem Exec.Inv_step {T : Type} [Inhabited T] (f : Func T) (s : ExecState T) (ev : Event)
    (h : Exec.Inv f s) : Exec.Inv f (Exec.step f s ev) := by
  cases ev with
  | cancel r => exact Exec.Inv_cancel f s r h
  | main pick => exact Exec.Inv_main f s pick h
  | worker => exact Exec.Inv_worker f s h

theorem Exec.Inv_run {T : Type} [Inhabited T] (f : Func T) (evs : List Event) :
    ∀ s : ExecState T, Exec.Inv f s → Exec.Inv f (Exec.run f s evs) := by
  induction evs with
  | nil => intro s h; exact h
  | cons ev evs ih =>
    intro s h
    rw [Exec.run_cons]
    exact ih _ (Exec.Inv_step f s ev h)

theorem Exec.Inv_Exec {T : Type} [Inhabited T] (ctx : Context) (f : Func T)
    (evs : List Event) : Exec.Inv f (Exec ctx f evs) :=
  Exec.Inv_run f evs _ (Exec.Inv_init f ctx)

theorem Exec.Exec_append {T : Type} [Inhabited T] (ctx : Context) (f : Func T)
    (evs evs' : List Event) :
    Exec ctx f (evs ++ evs') = Exec.run f (Exec ctx f evs) evs' := by
  simp [Exec, Exec.run_append]

/-! ## Exec: frame lemmas -/

theorem Exec.stepWorker_pc {T : Type} (f : Func T) (s : ExecState T) :
    (Exec.stepWorker f s).pc = s.pc := by
  unfold Exec.stepWorker
  cases hw : s.worker with
  | inF left => cases left <;> cases f <;> rfl
  | spawned => cases f <;> rfl
  | sending p =>
    simp only
    split
    · cases s.res.send p <;> rfl
    · rfl
  | closing => simp only; cases s.res.close <;> rfl
  | _ => rfl

theorem Exec.stepWorker_ctx {T : Type} (f : Func T) (s : ExecState T) :
    (Exec.stepWorker f s).ctx = s.ctx := by
  unfold Exec.stepWorker
  cases hw : s.worker with
  | inF left => cases left <;> cases f <;> rfl
  | spawned => cases f <;> rfl
  | sending p =>
    simp only
    split
    · cases s.res.send p <;> rfl
    · rfl
  | closing => simp only; cases s.res.close <;> rfl
  | _ => rfl

theorem Exec.stepMain_ctx {T : Type} [Inhabited T] (s : ExecState T) (pick : Nat) :
    (Exec.stepMain s pick).ctx = s.ctx := by
  unfold Exec.stepMain
  cases hpc : s.pc with
  | precheck =>
    simp only [select_one_default]
    cases s.ctx.Done <;> rfl
  | race =>
    simp only [select_two]
    cases s.ctx.Done <;> cases s.res.canRecv <;>
      rcases Nat.mod_two_eq_zero_or_one pick with hm | hm <;> simp [hm]
  | _ => rfl

theorem Exec.step_returned {T : Type} [Inhabited T] (f : Func T) (s : ExecState T)
    (ev : Event) (via : Via) (r : T) (er : GoError) (h : s.pc = PC.returned via r er) :
    (Exec.step f s ev).pc = PC.returned via r er := by
  cases ev with
  | cancel r => exact h
  | main pick => simp [Exec.step, Exec.stepMain, h]
  | worker => simp [Exec.step, Exec.stepWorker_pc, h]

theorem Exec.run_returned {T : Type} [Inhabited T] (f : Func T) (evs : List Event)
    (via : Via) (r : T) (er : GoError) :
    ∀ s : ExecState T, s.pc = PC.returned via r er →
      (Exec.run f s evs).pc = PC.returned via r er := by
  induction evs with
  | nil => intro s h; exact h
  | cons ev evs ih =>
    intro s h
    rw [Exec.run_cons]
    exact ih _ (Exec.step_returned f s ev via r er h)

theorem Exec.run_ctx_of_noCancel {T : Type} [Inhabited T] (f : Func T) (evs : List Event) :
    ∀ s : ExecState T, noCancel evs = true → (Exec.run f s evs).ctx = s.ctx := by
  induction evs with
  | nil => intro s _; rfl
  | cons ev evs ih =>
    intro s h
    rw [Exec.run_cons]
    simp only [noCancel, List.all_cons, Bool.and_eq_true] at h
    have hstep : (Exec.step f s ev).ctx = s.ctx := by
      cases ev with
      | cancel r => simp at h
      | main pick => exact Exec.stepMain_ctx s pick
      | worker => exact Exec.stepWorker_ctx f s
    rw [ih _ (by simpa [noCancel] using h.2), hstep]

/-! ## Exec: a context that is done before the call -/

theorem Exec.step_never_started {T : Type} [Inhabited T] (f : Func T) (r : Reason)
    (s : ExecState T) (ev : Event)
    (h : s.ctx = { state := some r } ∧ s.worker = Worker.unborn ∧ s.calls = 0 ∧ s.sends = 0 ∧
      (s.pc = PC.precheck ∨
        s.pc = PC.returned Via.cancellation default (Context.Err { state := some r }))) :
    (Exec.step f s ev).ctx = { state := some r } ∧
      (Exec.step f s ev).worker = Worker.unborn ∧
      (Exec.step f s ev).calls = 0 ∧ (Exec.step f s ev).sends = 0 ∧
      ((Exec.step f s ev).pc = PC.precheck ∨
        (Exec.step f s ev).pc =
          PC.returned Via.cancellation default (Context.Err { state := some r })) := by
  obtain ⟨hctx, hw, hc, hs, hpc⟩ := h
  cases ev with
  | cancel r' =>
    refine ⟨?_, hw, hc, hs, hpc⟩
    simp [Exec.step, hctx, Context.cancel]
  | main pick =>
    rcases hpc with hpc | hpc
    · simp [Exec.step, Exec.stepMain, hpc, select_one_default, hctx, Context.Done, hw, hc, hs]
    · simp [Exec.step, Exec.stepMain, hpc, hctx, hw, hc, hs]
  | worker =>
    simp [Exec.step, Exec.stepWorker, hw, hctx, hc, hs, hpc]

theorem Exec.run_never_started {T : Type} [Inhabited T] (f : Func T) (r : Reason)
    (evs : List Event) :
    ∀ s : ExecState T,
      (s.ctx = { state := some r } ∧ s.worker = Worker.unborn ∧ s.calls = 0 ∧ s.sends = 0 ∧
        (s.pc = PC.precheck ∨
          s.pc = PC.returned Via.cancellation default (Context.Err { state := some r }))) →
      (Exec.run f s evs).ctx = { state := some r } ∧
        (Exec.run f s evs).worker = Worker.unborn ∧
        (Exec.run f s evs).calls = 0 ∧ (Exec.run f s evs).sends = 0 ∧
        ((Exec.run f s evs).pc = PC.precheck ∨
          (Exec.run f s evs).pc =
            PC.returned Via.cancellation default (Context.Err { state := some r })) := by
  induction evs with
  | nil => intro s h; exact h
  | cons ev evs ih =>
    intro s h
    rw [Exec.run_cons]
    exact ih _ (Exec.step_never_started f r s ev h)

/-- C1: when the context is already done at the call of `Exec`, then under every
schedule `f` is never started (its call counter stays at zero, the goroutine is never
spawned and nothing is sent), and the first step of the caller makes `Exec` return the
zero value of `T` together with exactly `ctx.Err()`, whatever happens afterwards. -/
theorem Exec_done_before_call {T : Type} [Inhabited T] (r : Reason) (f : Func T)
    (evs : List Event) (pick : Nat) :
    (Exec { state := some r } f evs).calls = 0 ∧
    (Exec { state := some r } f evs).worker = Worker.unborn ∧
    (Exec { state := some r } f evs).sends = 0 ∧
    ((Exec { state := some r } f evs).pc = PC.precheck ∨
      (Exec { state := some r } f evs).pc =
        PC.returned Via.cancellation default (Context.Err { state := some r })) ∧
    (Exec { state := some r } f (Event.main pick :: evs)).result =
      some (default, Context.Err { state := some r }) ∧
    (Exec { state := some r } f (Event.main pick :: evs)).pc =
      PC.returned Via.cancellation default (Context.Err { state := some r }) ∧
    (Exec { state := some r } f (Event.main pick :: evs)).calls = 0 := by
  have h0 := Exec.run_never_started f r evs (Exec.init { state := some r })
    ⟨rfl, rfl, rfl, rfl, Or.inl rfl⟩
  have hstep : (Exec.step f (Exec.init { state := some r } : ExecState T) (Event.main pick)).pc
      = PC.returned Via.cancellation default (Context.Err { state := some r }) := by
    simp [Exec.step, Exec.stepMain, Exec.init, select_one_default, Context.Done]
  have h1 := Exec.run_never_started f r evs
    (Exec.step f (Exec.init { state := some r }) (Event.main pick))
    (Exec.step_never_started f r _ _ ⟨rfl, rfl, rfl, rfl, Or.inl rfl⟩)
  have hpc := Exec.run_returned f evs _ _ _ _ hstep
  refine ⟨h0.2.2.1, h0.2.1, h0.2.2.2.1, h0.2.2.2.2, ?_, hpc, h1.2.2.1⟩
  show (Exec.run f (Exec.step f (Exec.init { state := some r }) (Event.main pick)) evs).result = _
  simp [ExecState.result, hpc]

/-- Instance of `Exec_done_before_call`: the test "cancel before start"; the call returns
`(0, Canceled)` and `f` is not called, also when the goroutine scheduler runs afterwards. -/
theorem Exec_done_before_call_witness :
    (Exec { state := some Reason.canceled }
        (Func.returns 1000 (42 : Int) (GoError.foreign "some error"))
        [Event.main 0, Event.worker, Event.worker]).result = some (0, GoError.Canceled) ∧
    (Exec { state := some Reason.canceled }
        (Func.returns 1000 (42 : Int) (GoError.foreign "some error"))
        [Event.main 0, Event.worker, Event.worker]).calls = 0 :=
  ⟨(Exec_done_before_call Reason.canceled
      (Func.returns 1000 (42 : Int) (GoError.foreign "some error"))
      [Event.worker, Event.worker] 0).2.2.2.2.1,
    (Exec_done_before_call Reason.canceled
      (Func.returns 1000 (42 : Int) (GoError.foreign "some error"))
      [Event.worker, Event.worker] 0).2.2.2.2.2.2⟩

/-! ## Exec: progress of the spawned goroutine -/

theorem Exec.pc_of_born {T : Type} [Inhabited T] {f : Func T} {s : ExecState T}
    (h : Exec.Inv f s) (hw : s.worker ≠ Worker.unborn) :
    s.pc ≠ PC.precheck ∧ s.pc ≠ PC.spawn := by
  rcases h.2.1 hw with hp | ⟨r, er, hp⟩ | hp <;> simp [hp]

theorem Exec.stepMain_worker {T : Type} [Inhabited T] (s : ExecState T) (pick : Nat)
    (h : s.pc ≠ PC.spawn) : (Exec.stepMain s pick).worker = s.worker := by
  unfold Exec.stepMain
  cases hpc : s.pc with
  | precheck =>
    simp only [select_one_default]
    cases s.ctx.Done <;> rfl
  | spawn => exact absurd hpc h
  | race =>
    simp only [select_two]
    cases s.ctx.Done <;> cases s.res.canRecv <;>
      rcases Nat.mod_two_eq_zero_or_one pick with hm | hm <;> simp [hm]
  | returned via r er => rfl

theorem Exec.todo_stepWorker {T : Type} [Inhabited T] (f : Func T) (s : ExecState T)
    (h : Exec.Inv f s) (hf : f.out.isSome = true) (hw : s.worker ≠ Worker.unborn) :
    (Exec.stepWorker f s).worker ≠ Worker.unborn ∧
      Worker.todo f.work (Exec.stepWorker f s).worker = Worker.todo f.work s.worker - 1 := by
  have h1 := h.1
  unfold Exec.stepWorker
  cases hwk : s.worker with
  | unborn => exact absurd hwk hw
  | spawned =>
    cases f with
    | returns w v e => simp [Worker.todo, Func.work]
    | hangs => simp [Func.out] at hf
  | inF left =>
    cases left with
    | zero =>
      cases f with
      | returns w v e => simp [Worker.todo]
      | hangs => simp [Func.out] at hf
    | succ n => simp [Worker.todo]
  | stuck =>
    simp only [hwk] at h1
    rw [h1.2.2.2] at hf
    simp [Func.out] at hf
  | sending p =>
    simp only [hwk] at h1
    simp [h1.1, Chan.canSend, Chan.make, Chan.send, Worker.todo]
  | closing =>
    simp only [hwk] at h1
    obtain ⟨_, _, p, _, hres⟩ := h1
    rcases hres with ⟨hres, _⟩ | ⟨hres, _⟩ <;> simp [hres, Chan.close, Worker.todo]
  | exited => simp [hwk, Worker.todo]
  | panicked => simp [hwk] at h1

theorem Exec.exited_of_todo_zero {T : Type} [Inhabited T] (f : Func T) (s : ExecState T)
    (h : Exec.Inv f s) (hf : f.out.isSome = true) (hw : s.worker ≠ Worker.unborn)
    (h0 : Worker.todo f.work s.worker = 0) : s.worker = Worker.exited := by
  have h1 := h.1
  cases hwk : s.worker with
  | unborn => exact absurd hwk hw
  | exited => rfl
  | stuck =>
    simp only [hwk] at h1
    rw [h1.2.2.2] at hf
    simp [Func.out] at hf
  | panicked => simp [hwk] at h1
  | _ => simp [hwk, Worker.todo] at h0

theorem Exec.run_worker_exits {T : Type} [Inhabited T] (f : Func T)
    (hf : f.out.isSome = true) (evs : List Event) :
    ∀ s : ExecState T, Exec.Inv f s → s.worker ≠ Worker.unborn →
      Worker.todo f.work s.worker ≤ workerSteps evs →
      (Exec.run f s evs).worker = Worker.exited := by
  induction evs with
  | nil =>
    intro s h hw hle
    exact Exec.exited_of_todo_zero f s h hf hw (by simpa [workerSteps] using hle)
  | cons ev evs ih =>
    intro s h hw hle
    rw [Exec.run_cons]
    have hinv := Exec.Inv_step f s ev h
    cases ev with
    | cancel r =>
      exact ih _ hinv hw (by simpa [workerSteps] using hle)
    | main pick =>
      have hsame : (Exec.step f s (Event.main pick)).worker = s.worker :=
        Exec.stepMain_worker s pick (Exec.pc_of_born h hw).2
      exact ih _ hinv (by rw [hsame]; exact hw)
        (by rw [hsame]; simpa [workerSteps] using hle)
    | worker =>
      obtain ⟨hne, htodo⟩ := Exec.todo_stepWorker f s h hf hw
      refine ih _ hinv hne ?_
      show Worker.todo f.work (Exec.stepWorker f s).worker ≤ workerSteps evs
      rw [htodo]
      simp [workerSteps] at hle ⊢
      omega

theorem Exec.todo_le {T : Type} [Inhabited T] (f : Func T) (s : ExecState T)
    (h : Exec.Inv f s) : Worker.todo f.work s.worker ≤ f.work + 4 := by
  have h1 := h.1
  cases hwk : s.worker <;> simp only [hwk] at h1 <;> simp [Worker.todo]
  omega

/-! ## Exec: what is returned, and that something is returned -/

theorem pairOf_eta {F S : Type} (p : pair F S) : pairOf p.f p.s = p := by
  cases p
  rfl

theorem Exec.returned_shape {T : Type} [Inhabited T] {f : Func T} {s : ExecState T}
    (h : Exec.Inv f s) (via : Via) (ret : T) (err : GoError)
    (hpc : s.pc = PC.returned via ret err) :
    (via = Via.outcome ∧ f.out = some (pairOf ret err)) ∨
      (via = Via.cancellation ∧ s.ctx.Done = true ∧ ret = default ∧ err = s.ctx.Err) := by
  obtain ⟨h1, _, h3, h4⟩ := h
  cases via with
  | cancellation => exact Or.inr ⟨rfl, h3 ret err hpc⟩
  | outcome =>
    refine Or.inl ⟨rfl, ?_⟩
    rcases h4 ret err hpc with hw | hw <;> simp only [hw] at h1 <;>
      obtain ⟨_, _, p, hout, hres⟩ := h1 <;>
      rcases hres with ⟨_, hne⟩ | ⟨_, hp⟩
    · exact absurd hpc (hne ret err)
    · rw [hpc] at hp
      injection hp with _ hr he
      rw [hout, hr, he, pairOf_eta]
    · exact absurd hpc (hne ret err)
    · rw [hpc] at hp
      injection hp with _ hr he
      rw [hout, hr, he, pairOf_eta]

theorem Exec.two_main_of_Done {T : Type} [Inhabited T] (s : ExecState T) (p1 p2 : Nat)
    (hd : s.ctx.Done = true) :
    ∃ via r er, (Exec.stepMain (Exec.stepMain s p1) p2).pc = PC.returned via r er := by
  have hrace : ∀ (s' : ExecState T) (p : Nat), s'.ctx.Done = true → s'.pc = PC.race →
      ∃ via r er, (Exec.stepMain s' p).pc = PC.returned via r er := by
    intro s' p hd' hpc
    unfold Exec.stepMain
    simp only [hpc, select_two, hd']
    cases s'.res.canRecv <;> rcases Nat.mod_two_eq_zero_or_one p with hm | hm <;> simp [hm]
  have hstay : ∀ (s' : ExecState T) (p : Nat),
      (∃ via r er, s'.pc = PC.returned via r er) →
      ∃ via r er, (Exec.stepMain s' p).pc = PC.returned via r er := by
    rintro s' p ⟨via, r, er, hpc⟩
    exact ⟨via, r, er, by simp [Exec.stepMain, hpc]⟩
  cases hpc : s.pc with
  | precheck =>
    apply hstay
    simp [Exec.stepMain, hpc, select_one_default, hd]
  | spawn =>
    apply hrace
    · simp [Exec.stepMain, hpc, hd]
    · simp [Exec.stepMain, hpc]
  | race => exact hstay _ _ (hrace s p1 hd hpc)
  | returned via r er =>
    apply hstay
    exact ⟨via, r, er, by simp [Exec.stepMain, hpc]⟩

theorem Exec.two_main_born {T : Type} [Inhabited T] (f : Func T) (s : ExecState T)
    (p1 p2 : Nat) (h : Exec.Inv f s) :
    (Exec.stepMain (Exec.stepMain s p1) p2).worker ≠ Worker.unborn ∨
      ∃ via r er, (Exec.stepMain (Exec.stepMain s p1) p2).pc = PC.returned via r er := by
  by_cases hd : s.ctx.Done = true
  · exact Or.inr (Exec.two_main_of_Done s p1 p2 hd)
  · have hd' : s.ctx.Done = false := by simpa using hd
    cases hpc : s.pc with
    | precheck =>
      left
      simp [Exec.stepMain, hpc, select_one_default, hd']
    | spawn =>
      left
      rw [Exec.stepMain_worker _ _ (by simp [Exec.stepMain, hpc])]
      simp [Exec.stepMain, hpc]
    | race =>
      left
      have hw : s.worker ≠ Worker.unborn := by
        intro hw
        have h1 := h.1
        simp only [hw] at h1
        rcases h1.1 with hp | hp | hp <;> simp [hpc] at hp
      have hs1 : (Exec.stepMain s p1).worker = s.worker :=
        Exec.stepMain_worker s p1 (by simp [hpc])
      have hi1 := Exec.Inv_main f s p1 h
      rw [Exec.stepMain_worker _ _ (Exec.pc_of_born hi1 (by rw [hs1]; exact hw)).2, hs1]
      exact hw
    | returned via r er =>
      right
      exact ⟨via, r, er, by simp [Exec.stepMain, hpc]⟩

theorem Exec.main_of_exited {T : Type} [Inhabited T] (f : Func T) (s : ExecState T)
    (p : Nat) (h : Exec.Inv f s) (hw : s.worker = Worker.exited) :
    ∃ via r er, (Exec.stepMain s p).pc = PC.returned via r er := by
  have h1 := h.1
  simp only [hw] at h1
  obtain ⟨_, _, q, _, hres⟩ := h1
  rcases h.2.1 (by simp [hw]) with hp | ⟨r, er, hp⟩ | hp
  · rcases hres with ⟨hres, _⟩ | ⟨_, hp'⟩
    · unfold Exec.stepMain
      simp only [hp, select_two, hres, Chan.canRecv]
      cases s.ctx.Done <;> rcases Nat.mod_two_eq_zero_or_one p with hm | hm <;>
        simp [hm, Chan.recv]
    · rw [hp] at hp'
      simp at hp'
  · exact ⟨Via.outcome, r, er, by simp [Exec.stepMain, hp]⟩
  · exact ⟨Via.cancellation, default, s.ctx.Err, by simp [Exec.stepMain, hp]⟩

theorem workerSteps_replicate (n : Nat) : workerSteps (List.replicate n Event.worker) = n := by
  simp [workerSteps, List.countP_replicate]

theorem Exec.finishes {T : Type} [Inhabited T] (f : Func T) (hf : f.out.isSome = true)
    (s : ExecState T) (h : Exec.Inv f s) (p1 p2 p3 : Nat) :
    ∃ via r er, (Exec.run f s (Event.main p1 :: Event.main p2 ::
      (List.replicate (f.work + 4) Event.worker ++ [Event.main p3]))).pc
        = PC.returned via r er := by
  rw [Exec.run_cons, Exec.run_cons, Exec.run_append]
  have hi2 : Exec.Inv f (Exec.step f (Exec.step f s (Event.main p1)) (Event.main p2)) :=
    Exec.Inv_step f _ _ (Exec.Inv_step f _ _ h)
  rcases Exec.two_main_born f s p1 p2 h with hb | ⟨via, r, er, hp⟩
  · have hex := Exec.run_worker_exits f hf (List.replicate (f.work + 4) Event.worker) _ hi2 hb
      (by rw [workerSteps_replicate]; exact Exec.todo_le f _ hi2)
    exact Exec.main_of_exited f _ p3 (Exec.Inv_run f _ _ hi2) hex
  · exact ⟨via, r, er, Exec.run_returned f _ via r er _ (Exec.run_returned f _ via r er _ hp)⟩

theorem noCancel_finish (evs : List Event) (n p1 p2 p3 : Nat) (h : noCancel evs = true) :
    noCancel (evs ++ Event.main p1 :: Event.main p2 ::
      (List.replicate n Event.worker ++ [Event.main p3])) = true := by
  simp only [noCancel, List.all_append, List.all_cons, List.all_nil, Bool.and_true,
    Bool.true_and, Bool.and_eq_true] at h ⊢
  refine ⟨h, ?_⟩
  simp [List.all_eq_true]

theorem Exec.returned_of_noCancel {T : Type} [Inhabited T] (ctx : Context) (f : Func T)
    (evs : List Event) (hctx : ctx.Done = false) (hnc : noCancel evs = true)
    (via : Via) (ret : T) (err : GoError)
    (hpc : (Exec ctx f evs).pc = PC.returned via ret err) :
    via = Via.outcome ∧ f.out = some (pairOf ret err) := by
  have hc : (Exec ctx f evs).ctx = ctx := Exec.run_ctx_of_noCancel f evs _ hnc
  rcases Exec.returned_shape (Exec.Inv_Exec ctx f evs) via ret err hpc with h | h
  · exact h
  · rw [hc, hctx] at h
    simp at h

/-- C2: with a context that is not done and is never cancelled, and an `f` that returns
`(v, e)`, whenever `Exec` has returned it has returned exactly the pair `(v, e)`, the
value also when `e` is not nil and the error unchanged; and `Exec` does return it: after
any schedule, two steps of the caller, the steps the goroutine needs, and one more step
of the caller end the call with `(v, e)`. -/
theorem Exec_returns_result_of_f {T : Type} [Inhabited T] (ctx : Context) (work : Nat)
    (v : T) (e : GoError) (evs : List Event) (p1 p2 p3 : Nat)
    (hctx : ctx.Done = false) (hnc : noCancel evs = true) :
    (∀ via ret err, (Exec ctx (Func.returns work v e) evs).pc = PC.returned via ret err →
      via = Via.outcome ∧ ret = v ∧ err = e) ∧
    ((Exec ctx (Func.returns work v e) evs).result = none ∨
      (Exec ctx (Func.returns work v e) evs).result = some (v, e)) ∧
    (Exec ctx (Func.returns work v e) (evs ++ Event.main p1 :: Event.main p2 ::
      (List.replicate (work + 4) Event.worker ++ [Event.main p3]))).result = some (v, e) := by
  have hsafe : ∀ evs', noCancel evs' = true → ∀ via ret err,
      (Exec ctx (Func.returns work v e) evs').pc = PC.returned via ret err →
      via = Via.outcome ∧ ret = v ∧ err = e := by
    intro evs' hnc' via ret err hpc
    obtain ⟨hv, hout⟩ := Exec.returned_of_noCancel ctx _ evs' hctx hnc' via ret err hpc
    simp only [Func.out, pairOf, Option.some.injEq, pair.mk.injEq] at hout
    exact ⟨hv, hout.1.symm, hout.2.symm⟩
  refine ⟨hsafe evs hnc, ?_, ?_⟩
  · cases hpc : (Exec ctx (Func.returns work v e) evs).pc with
    | returned via ret err =>
      obtain ⟨_, hr, he⟩ := hsafe evs hnc via ret err hpc
      right
      simp [ExecState.result, hpc, hr, he]
    | _ => left; simp [ExecState.result, hpc]
  · obtain ⟨via, r, er, hp⟩ := Exec.finishes (Func.returns work v e) rfl
      (Exec ctx (Func.returns work v e) evs) (Exec.Inv_Exec ctx _ evs) p1 p2 p3
    rw [← Exec.Exec_append] at hp
    simp only [Func.work] at hp
    obtain ⟨_, hr, he⟩ := hsafe _ (noCancel_finish evs (work + 4) p1 p2 p3 hnc) via r er hp
    simp [ExecState.result, hp, hr, he]

/-- Instance of `Exec_returns_result_of_f`: the test without cancellation, `f` returning
`(42, some error)`. -/
theorem Exec_returns_result_of_f_witness :
    (Exec { state := none } (Func.returns 1 (42 : Int) (GoError.foreign "some error"))
      ([] ++ Event.main 0 :: Event.main 0 ::
        (List.replicate (1 + 4) Event.worker ++ [Event.main 0]))).result
      = some (42, GoError.foreign "some error") :=
  (Exec_returns_result_of_f { state := none } 1 (42 : Int) (GoError.foreign "some error")
    [] 0 0 0 rfl rfl).2.2

/-- C3: under every schedule, what a call of `Exec` has returned is exactly one of two
outcomes, told apart by the case of the final `select` that produced it: the pair that
`f` produced, or the zero value of `T` with `ctx.Err()`.  The second is returned only
when the context is done, its error is the reason of the context itself
(`DeadlineExceeded` for an elapsed deadline, `Canceled` for a cancellation), and once
returned the outcome never changes, so a result `f` delivers later is discarded.  A
call does return: two steps of the caller suffice once the context is done, and when
`f` returns, two steps of the caller, the steps of the goroutine and one more step of the
caller suffice. -/
theorem Exec_exactly_one_outcome {T : Type} [Inhabited T] (ctx : Context) (f : Func T)
    (evs : List Event) :
    (∀ via ret err, (Exec ctx f evs).pc = PC.returned via ret err →
      ((via = Via.outcome ∧ f.out = some (pairOf ret err)) ∨
        (via = Via.cancellation ∧ (Exec ctx f evs).ctx.Done = true ∧ ret = default ∧
          err = (Exec ctx f evs).ctx.Err ∧
          (((Exec ctx f evs).ctx.state = some Reason.deadlineExceeded ∧
              err = GoError.DeadlineExceeded) ∨
            ((Exec ctx f evs).ctx.state = some Reason.canceled ∧
              err = GoError.Canceled)))) ∧
      ∀ evs', (Exec ctx f (evs ++ evs')).pc = PC.returned via ret err) ∧
    ((Exec ctx f evs).ctx.Done = true → ∀ p1 p2,
      (Exec ctx f (evs ++ [Event.main p1, Event.main p2])).result.isSome = true) ∧
    (f.out.isSome = true → ∀ p1 p2 p3,
      (Exec ctx f (evs ++ Event.main p1 :: Event.main p2 ::
        (List.replicate (f.work + 4) Event.worker ++ [Event.main p3]))).result.isSome
          = true) := by
  refine ⟨?_, ?_, ?_⟩
  · intro via ret err hpc
    refine ⟨?_, fun evs' => ?_⟩
    · rcases Exec.returned_shape (Exec.Inv_Exec ctx f evs) via ret err hpc with h | h
      · exact Or.inl h
      · refine Or.inr ⟨h.1, h.2.1, h.2.2.1, h.2.2.2, ?_⟩
        obtain ⟨_, hd, _, he⟩ := h
        cases hs : (Exec ctx f evs).ctx with
        | mk st =>
          cases st with
          | none => simp [hs, Context.Done] at hd
          | some r => cases r <;> simp [he, hs, Context.Err]
    · rw [Exec.Exec_append]
      exact Exec.run_returned f evs' via ret err _ hpc
  · intro hd p1 p2
    obtain ⟨via, r, er, hp⟩ := Exec.two_main_of_Done (Exec ctx f evs) p1 p2 hd
    rw [Exec.Exec_append]
    have hp' : (Exec.run f (Exec ctx f evs) [Event.main p1, Event.main p2]).pc
        = PC.returned via r er := hp
    simp [ExecState.result, hp']
  · intro hf p1 p2 p3
    obtain ⟨via, r, er, hp⟩ := Exec.finishes f hf (Exec ctx f evs) (Exec.Inv_Exec ctx f evs)
      p1 p2 p3
    rw [Exec.Exec_append]
    simp [ExecState.result, hp]

/-- Instance of `Exec_exactly_one_outcome`: the deadline elapses while `f` runs; the call
returns the zero value with `DeadlineExceeded` and keeps that outcome while the goroutine
finishes. -/
theorem Exec_exactly_one_outcome_witness :
    (Exec { state := none } (Func.returns 5 (42 : Int) (GoError.foreign "some error"))
        ([Event.main 0, Event.main 0, Event.worker, Event.cancel Reason.deadlineExceeded,
            Event.main 0] ++ List.replicate 9 Event.worker)).pc
      = PC.returned Via.cancellation 0 GoError.DeadlineExceeded :=
  ((Exec_exactly_one_outcome { state := none }
      (Func.returns 5 (42 : Int) (GoError.foreign "some error"))
      [Event.main 0, Event.main 0, Event.worker, Event.cancel Reason.deadlineExceeded,
        Event.main 0]).1 Via.cancellation 0 GoError.DeadlineExceeded (by decide)).2
    (List.replicate 9 Event.worker)

/-- C8, as the claim states it, fails for `Exec`: under a context that is never done,
with `f` returning `(42, some error)`, `Exec` returns the value 42, which is not the
zero value, together with that error, which is not nil. -/
theorem Exec_returns_value_with_error :
    (Exec { state := none } (Func.returns 0 (42 : Int) (GoError.foreign "some error"))
        [Event.main 0, Event.main 0, Event.worker, Event.worker, Event.worker,
          Event.main 0]).result
      = some (42, GoError.foreign "some error") ∧
    (42 : Int) ≠ default ∧ GoError.foreign "some error" ≠ GoError.nil := by
  refine ⟨by decide, by decide, by decide⟩

theorem Recv_result_shape {T : Type} [Inhabited T] (ctx : Context) (ch : Chan T) (pick : Nat)
    (v : T) (e : GoError) (ch' : Chan T)
    (h : Recv ctx ch pick = Outcome.returned (v, e) ch') :
    e = GoError.nil ∨ (v = default ∧
      (e = GoError.Canceled ∨ e = GoError.DeadlineExceeded ∨
        e = GoError.text ErrChanClosed)) := by
  rw [Recv_cases] at h
  split at h
  · cases hb : ch.buf with
    | nil =>
      simp [hb] at h
      exact Or.inr ⟨h.1.1.symm, Or.inr (Or.inr h.1.2.symm)⟩
    | cons a rest =>
      simp [hb] at h
      exact Or.inl h.1.2.symm
  · split at h
    · rename_i hd
      simp at h
      rcases Context.Err_of_Done hd with he | he
      · exact Or.inr ⟨h.1.1.symm, Or.inl (by rw [← h.1.2, he])⟩
      · exact Or.inr ⟨h.1.1.symm, Or.inr (Or.inl (by rw [← h.1.2, he]))⟩
    · simp at h

theorem Send_result_shape {T : Type} (ctx : Context) (ch : Chan T) (t : T) (pick : Nat)
    (e : GoError) (ch' : Chan T) (h : Send ctx ch t pick = Outcome.returned e ch') :
    e = GoError.nil ∨ e = GoError.Canceled ∨ e = GoError.DeadlineExceeded := by
  rw [Send_cases] at h
  split at h
  · split at h
    · simp at h
    · simp at h
      exact Or.inl h.1.symm
  · split at h
    · rename_i hd
      simp at h
      rcases Context.Err_of_Done hd with he | he
      · exact Or.inr (Or.inl (by rw [← h.1, he]))
      · exact Or.inr (Or.inr (by rw [← h.1, he]))
    · simp at h

/-- C8, amended: what `Recv` returns is a value with a nil error, or the zero value
with one of `Canceled`, `DeadlineExceeded` and `ErrChanClosed`; the error `Send` returns
is nil, `Canceled` or `DeadlineExceeded`; what `Exec` returns is the pair that `f`
produced, unchanged (so the error of `f` can come together with a value that is not
zero), or the zero value with `Canceled` or `DeadlineExceeded`. -/
theorem result_shapes {T : Type} [Inhabited T] (ctx : Context) :
    (∀ (ch : Chan T) (pick : Nat) (v : T) (e : GoError) (ch' : Chan T),
      Recv ctx ch pick = Outcome.returned (v, e) ch' →
      e = GoError.nil ∨ (v = default ∧
        (e = GoError.Canceled ∨ e = GoError.DeadlineExceeded ∨
          e = GoError.text ErrChanClosed))) ∧
    (∀ (ch : Chan T) (t : T) (pick : Nat) (e : GoError) (ch' : Chan T),
      Send ctx ch t pick = Outcome.returned e ch' →
      e = GoError.nil ∨ e = GoError.Canceled ∨ e = GoError.DeadlineExceeded) ∧
    (∀ (f : Func T) (evs : List Event) (ret : T) (err : GoError),
      (Exec ctx f evs).result = some (ret, err) →
      f.out = some (pairOf ret err) ∨
        (ret = default ∧ (err = GoError.Canceled ∨ err = GoError.DeadlineExceeded))) := by
  refine ⟨fun ch pick v e ch' h => Recv_result_shape ctx ch pick v e ch' h,
    fun ch t pick e ch' h => Send_result_shape ctx ch t pick e ch' h, ?_⟩
  intro f evs ret err h
  cases hpc : (Exec ctx f evs).pc with
  | returned via r er =>
    simp only [ExecState.result, hpc, Option.some.injEq, Prod.mk.injEq] at h
    rw [h.1, h.2] at hpc
    rcases Exec.returned_shape (Exec.Inv_Exec ctx f evs) via ret err hpc with hs | hs
    · exact Or.inl hs.2
    · refine Or.inr ⟨hs.2.2.1, ?_⟩
      rw [hs.2.2.2]
      exact Context.Err_of_Done hs.2.1
  | _ => simp [ExecState.result, hpc] at h

/-- Instance of `result_shapes`: `Recv` on a channel holding 42. -/
theorem result_shapes_witness :
    (GoError.nil = GoError.nil ∨ ((42 : Int) = default ∧
      (GoError.nil = GoError.Canceled ∨ GoError.nil = GoError.DeadlineExceeded ∨
        GoError.nil = GoError.text ErrChanClosed))) :=
  (result_shapes { state := none }).1 ({ cap := 1, buf := [42], closed := true } : Chan Int) 0
    42 GoError.nil { cap := 1, buf := [], closed := true } rfl

/-! ## Exec: the handoff channel -/

theorem Exec.handoff_facts {T : Type} [Inhabited T] {f : Func T} {s : ExecState T}
    (h : Exec.Inv f s) :
    s.res.buf.length ≤ 1 ∧ s.sends ≤ 1 ∧ s.calls ≤ 1 ∧ s.workerBlocked = false ∧
      s.worker ≠ Worker.panicked ∧ (s.worker ≠ Worker.unborn → s.res.cap = 1) ∧
      (s.worker = Worker.exited → s.res.closed = true ∧ s.sends = 1 ∧ s.calls = 1) := by
  have h1 := h.1
  cases hw : s.worker <;> simp only [hw] at h1 <;>
    simp [ExecState.workerBlocked, hw, h1, Chan.make, Chan.canSend]
  · obtain ⟨_, _, p, _, hres⟩ := h1
    rcases hres with ⟨hres, _⟩ | ⟨hres, _⟩ <;> simp [hres, *]
  · obtain ⟨_, _, p, _, hres⟩ := h1
    rcases hres with ⟨hres, _⟩ | ⟨hres, _⟩ <;> simp [hres, *]

/-- C9: when `f` returns, under every schedule the handoff `res` has capacity one once the
goroutine exists, never holds more than one pair and is written at most once; the
goroutine is never blocked in its send and never panics; and once it exists, every
continuation of the schedule that gives it `work + 4` steps brings it to its exit with
its single pair sent and `res` closed, whatever the caller does in between.  When the
caller had already returned the cancellation result, the pair stays in `res`, unread. -/
theorem Exec_goroutine_always_exits {T : Type} [Inhabited T] (ctx : Context) (work : Nat)
    (v : T) (e : GoError) (evs evs' : List Event) :
    (Exec ctx (Func.returns work v e) evs).res.buf.length ≤ 1 ∧
    (Exec ctx (Func.returns work v e) evs).sends ≤ 1 ∧
    (Exec ctx (Func.returns work v e) evs).workerBlocked = false ∧
    (Exec ctx (Func.returns work v e) evs).worker ≠ Worker.panicked ∧
    ((Exec ctx (Func.returns work v e) evs).worker ≠ Worker.unborn →
      (Exec ctx (Func.returns work v e) evs).res.cap = 1 ∧
      (work + 4 ≤ workerSteps evs' →
        (Exec ctx (Func.returns work v e) (evs ++ evs')).worker = Worker.exited ∧
        (Exec ctx (Func.returns work v e) (evs ++ evs')).res.closed = true ∧
        (Exec ctx (Func.returns work v e) (evs ++ evs')).sends = 1 ∧
        (Exec ctx (Func.returns work v e) (evs ++ evs')).calls = 1)) ∧
    (∀ r er, (Exec ctx (Func.returns work v e) evs).pc = PC.returned Via.cancellation r er →
      (Exec ctx (Func.returns work v e) evs).worker = Worker.exited →
      (Exec ctx (Func.returns work v e) evs).res =
        { cap := 1, buf := [pairOf v e], closed := true }) := by
  have hinv := Exec.Inv_Exec ctx (Func.returns work v e) evs
  obtain ⟨hlen, hsends, _, hblk, hpan, hcap, _⟩ := Exec.handoff_facts hinv
  refine ⟨hlen, hsends, hblk, hpan, fun hw => ⟨hcap hw, fun hsteps => ?_⟩, ?_⟩
  · have hex : (Exec ctx (Func.returns work v e) (evs ++ evs')).worker = Worker.exited := by
      rw [Exec.Exec_append]
      exact Exec.run_worker_exits (Func.returns work v e) rfl evs' _ hinv hw
        (le_trans (Exec.todo_le _ _ hinv) hsteps)
    have hfin := (Exec.handoff_facts
      (Exec.Inv_Exec ctx (Func.returns work v e) (evs ++ evs'))).2.2.2.2.2.2 hex
    exact ⟨hex, hfin⟩
  · intro r er hpc hw
    have h1 := hinv.1
    simp only [hw] at h1
    obtain ⟨_, _, p, hout, hres⟩ := h1
    simp only [Func.out, Option.some.injEq] at hout
    rcases hres with ⟨hres, _⟩ | ⟨_, hp⟩
    · rw [hres, hout]
    · rw [hpc] at hp
      simp at hp

/-- Instance of `Exec_goroutine_always_exits`: the context is cancelled while `f` runs and
the caller returns `Canceled`; five more steps bring the goroutine to its exit, with its
pair left unread in the closed handoff. -/
theorem Exec_goroutine_always_exits_witness :
    (Exec { state := none } (Func.returns 1 (42 : Int) (GoError.foreign "some error"))
        [Event.main 0, Event.main 0, Event.cancel Reason.canceled, Event.main 0]).result
      = some (0, GoError.Canceled) ∧
    (Exec { state := none } (Func.returns 1 (42 : Int) (GoError.foreign "some error"))
        ([Event.main 0, Event.main 0, Event.cancel Reason.canceled, Event.main 0] ++
          List.replicate 5 Event.worker)).worker = Worker.exited ∧
    (Exec { state := none } (Func.returns 1 (42 : Int) (GoError.foreign "some error"))
        ([Event.main 0, Event.main 0, Event.cancel Reason.canceled, Event.main 0] ++
          List.replicate 5 Event.worker)).res
      = { cap := 1, buf := [pairOf 42 (GoError.foreign "some error")], closed := true } :=
  ⟨by decide,
    (((Exec_goroutine_always_exits { state := none } 1 (42 : Int)
      (GoError.foreign "some error")
      [Event.main 0, Event.main 0, Event.cancel Reason.canceled, Event.main 0]
      (List.replicate 5 Event.worker)).2.2.2.2.1 (by decide)).2 (by decide)).1,
    (Exec_goroutine_always_exits { state := none } 1 (42 : Int)
      (GoError.foreign "some error")
      ([Event.main 0, Event.main 0, Event.cancel Reason.canceled, Event.main 0] ++
          List.replicate 5 Event.worker) []).2.2.2.2.2 0 GoError.Canceled (by decide)
      (by decide)⟩

/-! ## Calls that stay blocked -/

/-- While the context is not done and is never cancelled, a call of `Exec` whose `f`
never returns has not returned, under any schedule: the final `select` stays blocked. -/
theorem Exec_blocked_while_f_hangs {T : Type} [Inhabited T] (ctx : Context)
    (evs : List Event) (hctx : ctx.Done = false) (hnc : noCancel evs = true) :
    (Exec ctx (Func.hangs : Func T) evs).result = none := by
  cases hpc : (Exec ctx (Func.hangs : Func T) evs).pc with
  | returned via ret err =>
    have h := (Exec.returned_of_noCancel ctx Func.hangs evs hctx hnc via ret err hpc).2
    simp [Func.out] at h
  | _ => simp [ExecState.result, hpc]

/-- Instance of `Exec_blocked_while_f_hangs`: after the caller and the goroutine have
both taken several steps, nothing is returned. -/
theorem Exec_blocked_while_f_hangs_witness :
    (Exec { state := none } (Func.hangs : Func Int)
      [Event.main 0, Event.main 0, Event.worker, Event.worker, Event.main 1,
        Event.main 0]).result = none :=
  Exec_blocked_while_f_hangs { state := none }
    [Event.main 0, Event.main 0, Event.worker, Event.worker, Event.main 1, Event.main 0]
    rfl rfl

end Contextual
